import Mathlib

/-!
Verification development for the bippi music-download CLI
(src/src/main.rs).  Rust strings are modelled as lists of Unicode
scalar values (`List Char`), matching iteration over Rust `char`s;
fallible code returns `Except`.
-/

namespace Bippi

/-- Strings are modelled as lists of Unicode scalar values. -/
abbrev Str := List Char

/-- Rust `char::is_control`: the Unicode Cc category,
U+0000..U+001F and U+007F..U+009F. -/
def rustIsControl (c : Char) : Bool :=
  decide (c.toNat ≤ 0x1F) || (decide (0x7F ≤ c.toNat) && decide (c.toNat ≤ 0x9F))

/-- Rust `char::is_whitespace`: the Unicode White_Space property. -/
def rustIsWhitespace (c : Char) : Bool :=
  decide (c.toNat = 0x09 ∨ c.toNat = 0x0A ∨ c.toNat = 0x0B ∨ c.toNat = 0x0C ∨
    c.toNat = 0x0D ∨ c.toNat = 0x20 ∨ c.toNat = 0x85 ∨ c.toNat = 0xA0 ∨
    c.toNat = 0x1680 ∨ (0x2000 ≤ c.toNat ∧ c.toNat ≤ 0x200A) ∨
    c.toNat = 0x2028 ∨ c.toNat = 0x2029 ∨ c.toNat = 0x202F ∨
    c.toNat = 0x205F ∨ c.toNat = 0x3000)

/-- Drop trailing characters satisfying `p`; models the trailing half of
Rust `str::trim` / `str::trim_matches`. -/
def dropTrailing (p : Char → Bool) (l : Str) : Str :=
  (l.reverse.dropWhile p).reverse

/-- Rust `str::trim`. -/
def rustTrim (l : Str) : Str :=
  dropTrailing rustIsWhitespace (l.dropWhile rustIsWhitespace)

/-- Rust `str::trim_matches('.')` as used by `sanitize_filename`. -/
def trimDots (l : Str) : Str :=
  dropTrailing (fun c => c == '.') (l.dropWhile (fun c => c == '.'))

/-- The characters `sanitize_filename` replaces with `_`
(main.rs line 573). -/
def isBadFileChar (c : Char) : Bool :=
  c == '/' || c == '\\' || c == '?' || c == '*' || c == '"' ||
  c == '<' || c == '>' || c == '|' || c == ':'

/-- One character of the replacement pass of `sanitize_filename`
(main.rs lines 571-577). -/
def replaceFileChar (c : Char) : Char :=
  if isBadFileChar c then '_'
  else if rustIsControl c then '_'
  else c

/-- `sanitize_filename` (main.rs lines 569-584): replace the special and
control characters by `_`, trim whitespace, then trim `.`, and fall back
to `"track"` when the result is empty. -/
def sanitize_filename (input : Str) : Str :=
  let sanitized := input.map replaceFileChar
  let trimmed := trimDots (rustTrim sanitized)
  if trimmed.isEmpty then "track".data else trimmed

example : sanitize_filename "...dots...".data = "dots".data := by decide

example : sanitize_filename "".data = "track".data := by decide

example : sanitize_filename "Title:With*Special?Chars".data =
    "Title_With_Special_Chars".data := by decide

example : sanitize_filename ". a".data = " a".data := by decide

example : sanitize_filename " a".data = "a".data := by decide

lemma bool_eq_false {b : Bool} (h : ¬ b = true) : b = false := by
  cases b
  · rfl
  · exact absurd rfl h

/-- A character is safe for filenames when it is neither one of the
replaced special characters nor a control character. -/
def goodFileChar (c : Char) : Bool :=
  !(isBadFileChar c) && !(rustIsControl c)

/-- Unfolding equation for `sanitize_filename`. -/
lemma sanitize_filename_eq (input : Str) :
    sanitize_filename input =
      (if (trimDots (rustTrim (input.map replaceFileChar))).isEmpty = true
        then "track".data
        else trimDots (rustTrim (input.map replaceFileChar))) := rfl

lemma goodFileChar_replaceFileChar (c : Char) :
    goodFileChar (replaceFileChar c) = true := by
  unfold replaceFileChar
  by_cases h1 : isBadFileChar c = true
  · rw [if_pos h1]; decide
  · rw [if_neg h1]
    by_cases h2 : rustIsControl c = true
    · rw [if_pos h2]; decide
    · rw [if_neg h2]
      unfold goodFileChar
      rw [bool_eq_false h1, bool_eq_false h2]
      rfl

lemma mem_of_mem_dropWhileB {p : Char → Bool} {l : Str} {c : Char}
    (h : c ∈ l.dropWhile p) : c ∈ l := by
  induction l with
  | nil => simp at h
  | cons x t ih =>
    rw [List.dropWhile_cons] at h
    by_cases hx : p x = true
    · rw [if_pos hx] at h
      exact List.mem_cons_of_mem x (ih h)
    · rw [if_neg hx] at h
      exact h

lemma mem_of_mem_dropTrailing {p : Char → Bool} {l : Str} {c : Char}
    (h : c ∈ dropTrailing p l) : c ∈ l := by
  unfold dropTrailing at h
  rw [List.mem_reverse] at h
  have := mem_of_mem_dropWhileB h
  rwa [List.mem_reverse] at this

lemma mem_of_mem_rustTrim {l : Str} {c : Char} (h : c ∈ rustTrim l) : c ∈ l :=
  mem_of_mem_dropWhileB (mem_of_mem_dropTrailing h)

lemma mem_of_mem_trimDots {l : Str} {c : Char} (h : c ∈ trimDots l) : c ∈ l :=
  mem_of_mem_dropWhileB (mem_of_mem_dropTrailing h)

/-- Every character of a sanitized filename is safe. -/
lemma sanitize_filename_all_good (x : Str) :
    (sanitize_filename x).all goodFileChar = true := by
  rw [List.all_eq_true]
  intro c hc
  rw [sanitize_filename_eq] at hc
  by_cases hemp : (trimDots (rustTrim (x.map replaceFileChar))).isEmpty = true
  · rw [if_pos hemp] at hc
    exact List.all_eq_true.mp (by decide : ("track".data).all goodFileChar = true) c hc
  · rw [if_neg hemp] at hc
    have hmem : c ∈ x.map replaceFileChar :=
      mem_of_mem_rustTrim (mem_of_mem_trimDots hc)
    rcases List.mem_map.mp hmem with ⟨a, _, rfl⟩
    exact goodFileChar_replaceFileChar a

/-- A sanitized filename is never empty. -/
lemma sanitize_filename_nonempty (x : Str) :
    1 ≤ (sanitize_filename x).length := by
  rw [sanitize_filename_eq]
  by_cases hemp : (trimDots (rustTrim (x.map replaceFileChar))).isEmpty = true
  · rw [if_pos hemp]; decide
  · rw [if_neg hemp]
    cases hlist : trimDots (rustTrim (x.map replaceFileChar)) with
    | nil => rw [hlist] at hemp; exact absurd rfl hemp
    | cons a t => simp [hlist]

/-- C8: for every input string, the output of `sanitize_filename`
contains none of the characters `/ \ ? * " < > | :` and no control
characters, and is never empty; in particular `sanitize_filename ""`
is `"track"` and `sanitize_filename "...dots..."` is `"dots"`. -/
theorem sanitize_filename_safe (x : Str) :
    (sanitize_filename x).all goodFileChar = true
    ∧ 1 ≤ (sanitize_filename x).length
    ∧ sanitize_filename "".data = "track".data
    ∧ sanitize_filename "...dots...".data = "dots".data :=
  ⟨sanitize_filename_all_good x, sanitize_filename_nonempty x,
    by decide, by decide⟩

lemma dropWhileB_head? {p : Char → Bool} {l : Str} {c : Char}
    (h : (l.dropWhile p).head? = some c) : p c = false := by
  induction l with
  | nil => simp at h
  | cons x t ih =>
    rw [List.dropWhile_cons] at h
    by_cases hx : p x = true
    · rw [if_pos hx] at h
      exact ih h
    · rw [if_neg hx] at h
      have hcx : x = c := by simpa using h
      rw [← hcx]
      exact bool_eq_false hx

lemma dropWhileB_eq_self {p : Char → Bool} {l : Str}
    (h : ∀ c, l.head? = some c → p c = false) : l.dropWhile p = l := by
  cases l with
  | nil => rfl
  | cons x t =>
    rw [List.dropWhile_cons, h x rfl]
    simp

lemma dropWhileB_idem (p : Char → Bool) (l : Str) :
    (l.dropWhile p).dropWhile p = l.dropWhile p :=
  dropWhileB_eq_self (fun _ hc => dropWhileB_head? hc)

lemma dropTrailing_idem (p : Char → Bool) (l : Str) :
    dropTrailing p (dropTrailing p l) = dropTrailing p l := by
  unfold dropTrailing
  rw [List.reverse_reverse, dropWhileB_idem]

lemma isPrefix_head? {l₁ l₂ : Str} (h : l₁ <+: l₂) (hne : l₁ ≠ []) :
    l₂.head? = l₁.head? := by
  rcases h with ⟨t, rfl⟩
  cases l₁ with
  | nil => exact absurd rfl hne
  | cons a s => rfl

lemma dropWhileB_isSuffix (p : Char → Bool) (l : Str) :
    l.dropWhile p <:+ l := by
  induction l with
  | nil => exact List.suffix_rfl
  | cons x t ih =>
    rw [List.dropWhile_cons]
    by_cases hx : p x = true
    · rw [if_pos hx]
      exact ih.trans (List.suffix_cons x t)
    · rw [if_neg hx]

lemma dropTrailing_isPrefix (p : Char → Bool) (l : Str) :
    dropTrailing p l <+: l := by
  rcases dropWhileB_isSuffix p l.reverse with ⟨t, ht⟩
  refine ⟨t.reverse, ?_⟩
  have h2 := congrArg List.reverse ht
  rw [List.reverse_append, List.reverse_reverse] at h2
  exact h2

lemma dropWhileB_dropTrailing (p : Char → Bool) (l : Str) :
    (dropTrailing p (l.dropWhile p)).dropWhile p
      = dropTrailing p (l.dropWhile p) := by
  apply dropWhileB_eq_self
  intro c hc
  by_cases hne : dropTrailing p (l.dropWhile p) = []
  · rw [hne] at hc; simp at hc
  · have hpref := dropTrailing_isPrefix p (l.dropWhile p)
    have hhead := isPrefix_head? hpref hne
    rw [← hhead] at hc
    exact dropWhileB_head? hc

lemma trimDots_idem (l : Str) : trimDots (trimDots l) = trimDots l := by
  unfold trimDots
  rw [dropWhileB_dropTrailing, dropTrailing_idem]

lemma map_replaceFileChar_of_good {l : Str}
    (h : ∀ c ∈ l, goodFileChar c = true) : l.map replaceFileChar = l := by
  induction l with
  | nil => rfl
  | cons x t ih =>
    have hx := h x (List.mem_cons_self x t)
    unfold goodFileChar at hx
    rw [Bool.and_eq_true] at hx
    have hx1 : isBadFileChar x = false := by simpa using hx.1
    have hx2 : rustIsControl x = false := by simpa using hx.2
    simp only [List.map_cons, ih (fun c hc => h c (List.mem_cons_of_mem x hc))]
    unfold replaceFileChar
    simp [hx1, hx2]

/-- C1 (amended): `sanitize_filename` is idempotent on every input whose
sanitized result carries no leading or trailing whitespace (trimming the
dots after the whitespace can expose new boundary whitespace, which only
a second application removes). -/
theorem sanitize_filename_idempotent_on_trimmed (x : Str)
    (h : rustTrim (sanitize_filename x) = sanitize_filename x) :
    sanitize_filename (sanitize_filename x) = sanitize_filename x := by
  by_cases hemp : (trimDots (rustTrim (x.map replaceFileChar))).isEmpty = true
  · have hy : sanitize_filename x = "track".data := by
      rw [sanitize_filename_eq, if_pos hemp]
    rw [hy]
    decide
  · have hy : sanitize_filename x = trimDots (rustTrim (x.map replaceFileChar)) := by
      rw [sanitize_filename_eq, if_neg hemp]
    have hne : sanitize_filename x ≠ [] := by
      rw [hy]
      intro hcon
      rw [hcon] at hemp
      exact hemp rfl
    have hall : ∀ c ∈ sanitize_filename x, goodFileChar c = true :=
      List.all_eq_true.mp (sanitize_filename_all_good x)
    have hmap : (sanitize_filename x).map replaceFileChar = sanitize_filename x :=
      map_replaceFileChar_of_good hall
    have htd : trimDots (sanitize_filename x) = sanitize_filename x := by
      rw [hy, trimDots_idem]
    rw [sanitize_filename_eq (sanitize_filename x), hmap, h, htd]
    rw [if_neg]
    intro hcon
    rw [List.isEmpty_iff] at hcon
    exact hne hcon

/-- C1 counterexample: `sanitize_filename` is not idempotent on `". a"`
(first application gives `" a"`, the second `"a"`). -/
theorem sanitize_filename_not_idempotent :
    (sanitize_filename (sanitize_filename ". a".data)
      == sanitize_filename ". a".data) = false := by decide

/-- Witness for the amended C1 at the concrete input `"song.mp3"`. -/
theorem sanitize_filename_idempotent_on_trimmed_witness :
    rustTrim (sanitize_filename "song.mp3".data) = sanitize_filename "song.mp3".data
    ∧ sanitize_filename (sanitize_filename "song.mp3".data)
        = sanitize_filename "song.mp3".data :=
  ⟨by decide, sanitize_filename_idempotent_on_trimmed "song.mp3".data (by decide)⟩

/-- Rust `char::to_ascii_lowercase`: lowercases only ASCII `A`-`Z`. -/
def toAsciiLowerChar (c : Char) : Char :=
  if 0x41 ≤ c.toNat ∧ c.toNat ≤ 0x5A then Char.ofNat (c.toNat + 0x20) else c

/-- Rust `str::to_ascii_lowercase`. -/
def lowerAscii (l : Str) : Str := l.map toAsciiLowerChar

/-- `n` is a prefix of the second argument (Rust `str::starts_with`). -/
def isPrefixB : Str → Str → Bool
  | [], _ => true
  | _ :: _, [] => false
  | a :: as, b :: bs => a == b && isPrefixB as bs

/-- `n` is a suffix of `l` (Rust `str::ends_with`). -/
def isSuffixB (n l : Str) : Bool := isPrefixB n.reverse l.reverse

/-- Rust `str::contains` for literal substrings. -/
def containsSubstr : Str → Str → Bool
  | [], needle => needle.isEmpty
  | c :: t, needle => isPrefixB needle (c :: t) || containsSubstr t needle

/-- The number of (possibly overlapping) occurrences of a non-empty
needle in a string: one count per position where it starts. -/
def countOccur (n : Str) : Str → Nat
  | [] => 0
  | c :: t => if isPrefixB n (c :: t) then countOccur n t + 1 else countOccur n t

example : containsSubstr "hello world".data "lo wo".data = true := by decide

example : countOccur "aa".data "aaa".data = 2 := by decide

/-- Rust `str::split_once`: split around the first occurrence of the
delimiter. -/
def split_once (d : Char) : Str → Option (Str × Str)
  | [] => none
  | x :: xs =>
    if x = d then some ([], xs)
    else
      match split_once d xs with
      | some p => some (x :: p.1, p.2)
      | none => none

/-- One iteration of the delimiter loop shared by `split_artist_album`
(main.rs lines 400-411) and `split_artist_song` (lines 709-720): split at
the delimiter's first occurrence and accept only when both trimmed halves
are non-empty. -/
def splitTryDelim (raw : Str) (d : Char) : Option (Str × Str) :=
  match split_once d raw with
  | some p =>
    let artist := rustTrim p.1
    let album := rustTrim p.2
    if artist ≠ [] ∧ album ≠ [] then some (artist, album) else none
  | none => none

/-- `split_artist_album` (main.rs lines 400-411): try hyphen, en-dash,
em-dash in that order. -/
def split_artist_album (raw : Str) : Option (Str × Str) :=
  match splitTryDelim raw '-' with
  | some p => some p
  | none =>
    match splitTryDelim raw (Char.ofNat 0x2013) with
    | some p => some p
    | none => splitTryDelim raw (Char.ofNat 0x2014)

/-- `split_artist_song` (main.rs lines 709-720); same algorithm as
`split_artist_album`, kept separate as in the source. -/
def split_artist_song (raw : Str) : Option (Str × Str) :=
  match splitTryDelim raw '-' with
  | some p => some p
  | none =>
    match splitTryDelim raw (Char.ofNat 0x2013) with
    | some p => some p
    | none => splitTryDelim raw (Char.ofNat 0x2014)

/-- `escape_musicbrainz_query` (main.rs lines 413-415):
`value.replace(quote, backslash-quote)`. -/
def escape_musicbrainz_query (value : Str) : Str :=
  (value.map (fun c => if c = '"' then ['\\', '"'] else [c])).flatten

/-- `build_musicbrainz_search_query` (main.rs lines 388-398). -/
def build_musicbrainz_search_query (raw : Str) : Str :=
  match split_artist_album raw with
  | some p =>
    "release:\"".data ++ escape_musicbrainz_query p.2
      ++ "\" AND artist:\"".data ++ escape_musicbrainz_query p.1 ++ "\"".data
  | none => raw

example : build_musicbrainz_search_query "just a query".data = "just a query".data := by
  decide

/-- Spec-side formulation of splitting at the *first* occurrence of a
delimiter: everything strictly before the first hit, and everything after
it. -/
def specSplitAtFirst (d : Char) (s : Str) : Option (Str × Str) :=
  if d ∈ s then
    some (s.takeWhile (fun c => !(c == d)), (s.dropWhile (fun c => !(c == d))).tail)
  else none

/-- Spec 4.1 `splitOnDashDelimiter`, one delimiter: split on the first
occurrence; both sides must be non-empty after trimming. -/
def specTryDelim (d : Char) (s : Str) : Option (Str × Str) :=
  match specSplitAtFirst d s with
  | some p =>
    if rustTrim p.1 ≠ [] ∧ rustTrim p.2 ≠ [] then some (rustTrim p.1, rustTrim p.2)
    else none
  | none => none

/-- Spec 4.1 `splitOnDashDelimiter`: hyphen, en-dash, em-dash in priority
order. -/
def specSplitDash (s : Str) : Option (Str × Str) :=
  match specTryDelim '-' s with
  | some p => some p
  | none =>
    match specTryDelim (Char.ofNat 0x2013) s with
    | some p => some p
    | none => specTryDelim (Char.ofNat 0x2014) s

lemma split_once_eq_spec (d : Char) (l : Str) :
    split_once d l = specSplitAtFirst d l := by
  induction l with
  | nil => simp [split_once, specSplitAtFirst]
  | cons x xs ih =>
    by_cases hx : x = d
    · subst hx
      simp [split_once, specSplitAtFirst, List.takeWhile_cons, List.dropWhile_cons]
    · have hbx : (!(x == d)) = true := by
        simp [hx]
      rw [specSplitAtFirst]
      rw [if_congr (Iff.rfl) rfl rfl]
      by_cases hmem : d ∈ x :: xs
      · have hmem' : d ∈ xs := by
          rcases List.mem_cons.mp hmem with h1 | h2
          · exact absurd h1.symm hx
          · exact h2
        rw [if_pos hmem]
        rw [List.takeWhile_cons, hbx, List.dropWhile_cons, hbx]
        rw [split_once, if_neg hx, ih, specSplitAtFirst, if_pos hmem']
        simp
      · have hmem' : d ∉ xs := fun hc => hmem (List.mem_cons_of_mem x hc)
        rw [if_neg hmem]
        rw [split_once, if_neg hx, ih, specSplitAtFirst, if_neg hmem']

lemma splitTryDelim_eq_spec (raw : Str) (d : Char) :
    splitTryDelim raw d = specTryDelim d raw := by
  unfold splitTryDelim specTryDelim
  rw [split_once_eq_spec]

lemma split_artist_album_eq_spec (raw : Str) :
    split_artist_album raw = specSplitDash raw := by
  unfold split_artist_album specSplitDash
  rw [splitTryDelim_eq_spec, splitTryDelim_eq_spec, splitTryDelim_eq_spec]

/-- C7: `build_musicbrainz_search_query` produces the structured query
`release:"<album>" AND artist:"<artist>"` (with embedded double quotes
backslash-escaped) exactly when the raw query splits on the first hyphen,
en-dash, or em-dash (tried in that priority order) into two halves that
are non-empty after trimming; otherwise it returns the raw query
unchanged. -/
theorem build_musicbrainz_search_query_split (raw : Str) :
    (∀ artist album, specSplitDash raw = some (artist, album) →
      build_musicbrainz_search_query raw =
        "release:\"".data ++ escape_musicbrainz_query album
          ++ "\" AND artist:\"".data ++ escape_musicbrainz_query artist
          ++ "\"".data)
    ∧ (specSplitDash raw = none → build_musicbrainz_search_query raw = raw) := by
  constructor
  · intro artist album h
    unfold build_musicbrainz_search_query
    rw [split_artist_album_eq_spec, h]
  · intro h
    unfold build_musicbrainz_search_query
    rw [split_artist_album_eq_spec, h]

/-- Witness for C7 at `"Metallica - Master of Puppets"` and the escaping
behaviour on an embedded double quote. -/
theorem build_musicbrainz_search_query_split_witness :
    specSplitDash "Metallica - Master of Puppets".data
        = some ("Metallica".data, "Master of Puppets".data)
    ∧ build_musicbrainz_search_query "Metallica - Master of Puppets".data
        = "release:\"Master of Puppets\" AND artist:\"Metallica\"".data := by
  refine ⟨by decide, ?_⟩
  rw [(build_musicbrainz_search_query_split "Metallica - Master of Puppets".data).1
    "Metallica".data "Master of Puppets".data (by decide)]
  decide

lemma isPrefixB_append_extend {n s : Str} (b : Str) (h : isPrefixB n s = true) :
    isPrefixB n (s ++ b) = true := by
  induction n generalizing s with
  | nil => rfl
  | cons a as ih =>
    cases s with
    | nil => simp [isPrefixB] at h
    | cons x xs =>
      rw [isPrefixB, Bool.and_eq_true] at h
      rw [List.cons_append, isPrefixB, Bool.and_eq_true]
      exact ⟨h.1, ih h.2⟩

lemma containsSubstr_nil_needle (hay : Str) : containsSubstr hay [] = true := by
  cases hay with
  | nil => rfl
  | cons c t => rfl

lemma containsSubstr_append_left {a n : Str} (b : Str)
    (h : containsSubstr a n = true) : containsSubstr (a ++ b) n = true := by
  induction a with
  | nil =>
    have : n = [] := by
      cases n with
      | nil => rfl
      | cons c t => simp [containsSubstr, List.isEmpty] at h
    rw [this]
    exact containsSubstr_nil_needle _
  | cons x t ih =>
    rw [containsSubstr, Bool.or_eq_true] at h
    rw [List.cons_append, containsSubstr, Bool.or_eq_true]
    rcases h with h | h
    · exact Or.inl (by rw [← List.cons_append]; exact isPrefixB_append_extend b h)
    · exact Or.inr (ih h)

/-- `normalize_playlist_url` (main.rs lines 267-283). -/
def normalize_playlist_url (url : Str) (fallback_id : Option Str) : Str :=
  if containsSubstr url "://".data then url
  else if isPrefixB "/playlist?".data url then "https://www.youtube.com".data ++ url
  else if isPrefixB "playlist?".data url then "https://www.youtube.com/".data ++ url
  else if isPrefixB "/watch?".data url then "https://www.youtube.com".data ++ url
  else if isPrefixB "watch?".data url then "https://www.youtube.com/".data ++ url
  else
    match fallback_id with
    | some id => "https://www.youtube.com/playlist?list=".data ++ id
    | none => "https://www.youtube.com/playlist?list=".data ++ url

/-- A flat-playlist search result entry, with the optional string fields
read by `playlist_url_from_entry` (main.rs lines 236-241); `entryType`
models the JSON `_type` field. -/
structure PlaylistEntry where
  entryType : Option Str
  ie_key : Option Str
  url : Option Str
  playlist_id : Option Str
  id : Option Str
  deriving DecidableEq

/-- `playlist_url_from_entry` (main.rs lines 235-265).  When the `url`
block does not return, control falls through to the id fallback, as in
the source. -/
def playlist_url_from_entry (e : PlaylistEntry) : Option Str :=
  let fallbackId := e.playlist_id.or e.id
  let fromUrl : Option Str :=
    match e.url with
    | some url =>
      if containsSubstr url "://".data && containsSubstr url "list=".data then
        some url
      else if e.entryType = some "playlist".data
          ∨ e.ie_key = some "YoutubeTab".data
          ∨ e.ie_key = some "YoutubePlaylist".data
          ∨ e.ie_key = some "YoutubeMix".data then
        some (normalize_playlist_url url fallbackId)
      else none
    | none => none
  match fromUrl with
  | some u => some u
  | none =>
    match fallbackId with
    | some id =>
      if isPrefixB "PL".data id || isPrefixB "OL".data id || isPrefixB "RD".data id then
        some ("https://www.youtube.com/playlist?list=".data ++ id)
      else none
    | none => none

/-- C9: an absolute URL (containing `://`) passes through
`normalize_playlist_url` unchanged; `/playlist?list=123` becomes the
canonical playlist URL; and an entry with no url field whose id begins
with `PL` yields the same canonical form via the id fallback of
`playlist_url_from_entry`. -/
theorem playlist_url_normalization_cases :
    (∀ (url : Str) (fid : Option Str), containsSubstr url "://".data = true →
      normalize_playlist_url url fid = url)
    ∧ normalize_playlist_url "/playlist?list=123".data none
        = "https://www.youtube.com/playlist?list=123".data
    ∧ playlist_url_from_entry ⟨none, none, none, none, some "PL123".data⟩
        = some "https://www.youtube.com/playlist?list=PL123".data := by
  refine ⟨?_, by decide, by decide⟩
  intro url fid h
  unfold normalize_playlist_url
  rw [if_pos h]

/-- Witness for C9's universally quantified pass-through clause. -/
theorem playlist_url_normalization_cases_witness :
    containsSubstr "https://youtube.com/playlist?list=123".data "://".data = true
    ∧ normalize_playlist_url "https://youtube.com/playlist?list=123".data none
        = "https://youtube.com/playlist?list=123".data :=
  ⟨by decide,
    playlist_url_normalization_cases.1 "https://youtube.com/playlist?list=123".data
      none (by decide)⟩

/-- C10: `normalize_playlist_url` always returns an absolute URL — the
result contains the scheme separator `://` on every branch. -/
theorem normalize_playlist_url_absolute (url : Str) (fid : Option Str) :
    containsSubstr (normalize_playlist_url url fid) "://".data = true := by
  unfold normalize_playlist_url
  by_cases h1 : containsSubstr url "://".data = true
  · rw [if_pos h1]
    exact h1
  · rw [if_neg h1]
    by_cases h2 : isPrefixB "/playlist?".data url = true
    · rw [if_pos h2]
      exact containsSubstr_append_left url (by decide)
    · rw [if_neg h2]
      by_cases h3 : isPrefixB "playlist?".data url = true
      · rw [if_pos h3]
        exact containsSubstr_append_left url (by decide)
      · rw [if_neg h3]
        by_cases h4 : isPrefixB "/watch?".data url = true
        · rw [if_pos h4]
          exact containsSubstr_append_left url (by decide)
        · rw [if_neg h4]
          by_cases h5 : isPrefixB "watch?".data url = true
          · rw [if_pos h5]
            exact containsSubstr_append_left url (by decide)
          · rw [if_neg h5]
            cases fid with
            | some id => exact containsSubstr_append_left id (by decide)
            | none => exact containsSubstr_append_left url (by decide)

/-- The search text of `build_single_search_query` (main.rs lines
688-695): `"<artist> <song>"` when the trimmed query splits on a dash
delimiter, the trimmed query otherwise. -/
def singleSearchText (query : Str) : Str :=
  match split_artist_song (rustTrim query) with
  | some p => p.1 ++ (' ' :: p.2)
  | none => rustTrim query

/-- The terms of `build_single_search_query` before the final trim
(main.rs lines 697-704): append `" audio"` unless the search text
already contains `"audio"` case-insensitively, then append the
exclusion term. -/
def singleSearchTerms (query : Str) : Str :=
  (if containsSubstr (lowerAscii (singleSearchText query)) "audio".data
    then singleSearchText query
    else singleSearchText query ++ " audio".data)
    ++ " -\"music video\"".data

/-- `build_single_search_query` (main.rs lines 687-707). -/
def build_single_search_query (query : Str) : Str :=
  "ytsearch1:".data ++ rustTrim (singleSearchTerms query)

example : build_single_search_query "some audio track".data
    = "ytsearch1:some audio track -\"music video\"".data := by decide

example : build_single_search_query "Metallica - Nothing Else Matters".data
    = "ytsearch1:Metallica Nothing Else Matters audio -\"music video\"".data := by
  decide

lemma isPrefixB_length_le {n l : Str} (h : isPrefixB n l = true) :
    n.length ≤ l.length := by
  induction n generalizing l with
  | nil => simp
  | cons a as ih =>
    cases l with
    | nil => simp [isPrefixB] at h
    | cons x xs =>
      rw [isPrefixB, Bool.and_eq_true] at h
      simp only [List.length_cons]
      exact Nat.succ_le_succ (ih h.2)

lemma isPrefixB_append_of_le {n : Str} (s b : Str) (hle : n.length ≤ s.length) :
    isPrefixB n (s ++ b) = isPrefixB n s := by
  induction n generalizing s with
  | nil => rfl
  | cons a as ih =>
    cases s with
    | nil => simp at hle
    | cons x xs =>
      rw [List.cons_append, isPrefixB, isPrefixB]
      rw [ih xs (Nat.le_of_succ_le_succ (by simpa using hle))]

lemma isPrefixB_drop_of_append {n s b : Str} (hlt : s.length < n.length)
    (h : isPrefixB n (s ++ b) = true) : isPrefixB (n.drop s.length) b = true := by
  induction s generalizing n with
  | nil => simpa using h
  | cons x xs ih =>
    cases n with
    | nil => simp at hlt
    | cons a as =>
      rw [List.cons_append, isPrefixB, Bool.and_eq_true] at h
      have hlt' : xs.length < as.length := by
        have := hlt
        simp only [List.length_cons] at this
        exact Nat.lt_of_succ_lt_succ this
      simp only [List.length_cons, List.drop_succ_cons]
      exact ih hlt' h.2

lemma isPrefixB_append_self (p rest : Str) : isPrefixB p (p ++ rest) = true := by
  induction p with
  | nil => rfl
  | cons a as ih =>
    rw [List.cons_append, isPrefixB, Bool.and_eq_true]
    exact ⟨by simp, ih⟩

lemma isSuffixB_append_self (n z : Str) : isSuffixB n (z ++ n) = true := by
  unfold isSuffixB
  rw [List.reverse_append]
  exact isPrefixB_append_self _ _

/-- No occurrence of `"audio"` can span the boundary between `s` and `b`
when no proper tail of `"audio"` is a prefix of `b`. -/
lemma audio_no_cross {b : Str}
    (hb : ∀ k, k < 5 → 1 ≤ k → isPrefixB ("audio".data.drop k) b = false) :
    ∀ s : Str, s ≠ [] → s.length < ("audio".data).length →
      isPrefixB "audio".data (s ++ b) = false := by
  intro s h1 h2
  cases hp : isPrefixB "audio".data (s ++ b) with
  | false => rfl
  | true =>
    have hd := isPrefixB_drop_of_append h2 hp
    have h5 : s.length < 5 := h2
    have h1' : 1 ≤ s.length := by
      cases s with
      | nil => exact absurd rfl h1
      | cons c cs => simp
    rw [hb s.length h5 h1'] at hd
    exact Bool.noConfusion hd

/-- Occurrence counting distributes over append when no occurrence can
span the boundary. -/
lemma countOccur_append (n a b : Str)
    (H : ∀ s : Str, s ≠ [] → s.length < n.length → isPrefixB n (s ++ b) = false) :
    countOccur n (a ++ b) = countOccur n a + countOccur n b := by
  induction a with
  | nil => simp [countOccur]
  | cons x t ih =>
    have key : isPrefixB n (x :: (t ++ b)) = isPrefixB n (x :: t) := by
      by_cases hle : n.length ≤ (x :: t).length
      · have h0 := isPrefixB_append_of_le (x :: t) b hle
        rw [List.cons_append] at h0
        exact h0
      · have hlt : (x :: t).length < n.length := Nat.lt_of_not_le hle
        have h1 := H (x :: t) (by simp) hlt
        rw [List.cons_append] at h1
        have h2 : isPrefixB n (x :: t) = false := by
          cases hp : isPrefixB n (x :: t) with
          | false => rfl
          | true => exact absurd (isPrefixB_length_le hp) (Nat.not_le_of_lt hlt)
        rw [h1, h2]
    rw [List.cons_append, countOccur, countOccur, key, ih]
    by_cases hp : isPrefixB n (x :: t) = true
    · rw [if_pos hp, if_pos hp]
      omega
    · rw [if_neg hp, if_neg hp]

/-- Dropping the `"ytsearch1:"` prefix does not change the number of
`"audio"` occurrences. -/
lemma countOccur_audio_ytsearch (rest : Str) :
    countOccur "audio".data ("ytsearch1:".data ++ rest)
      = countOccur "audio".data rest := rfl

lemma head?_append_left {l : Str} (z : Str) (hne : l ≠ []) :
    (l ++ z).head? = l.head? := by
  cases l with
  | nil => exact absurd rfl hne
  | cons a t => rfl

lemma rustTrim_head {l : Str} {c : Char} (h : (rustTrim l).head? = some c) :
    rustIsWhitespace c = false := by
  unfold rustTrim at h
  have hne : dropTrailing rustIsWhitespace (l.dropWhile rustIsWhitespace) ≠ [] := by
    intro hcon
    rw [hcon] at h
    simp at h
  have hpref := dropTrailing_isPrefix rustIsWhitespace (l.dropWhile rustIsWhitespace)
  have hh := isPrefix_head? hpref hne
  rw [h] at hh
  exact dropWhileB_head? hh

lemma rustTrim_eq_self {l : Str}
    (hhead : ∀ c, l.head? = some c → rustIsWhitespace c = false)
    (hlast : ∀ c, l.reverse.head? = some c → rustIsWhitespace c = false) :
    rustTrim l = l := by
  unfold rustTrim
  rw [dropWhileB_eq_self hhead]
  unfold dropTrailing
  rw [dropWhileB_eq_self hlast, List.reverse_reverse]

lemma splitTryDelim_some {raw : Str} {d : Char} {p : Str × Str}
    (h : splitTryDelim raw d = some p) :
    (∃ l, p.1 = rustTrim l) ∧ p.1 ≠ [] ∧ p.2 ≠ [] := by
  unfold splitTryDelim at h
  cases hso : split_once d raw with
  | none => rw [hso] at h; simp at h
  | some qq =>
    rw [hso] at h
    have h' : (if rustTrim qq.1 ≠ [] ∧ rustTrim qq.2 ≠ [] then
        some (rustTrim qq.1, rustTrim qq.2) else none) = some p := h
    by_cases hcond : rustTrim qq.1 ≠ [] ∧ rustTrim qq.2 ≠ []
    · rw [if_pos hcond] at h'
      have hp := Option.some.inj h'
      rw [← hp]
      exact ⟨⟨qq.1, rfl⟩, hcond.1, hcond.2⟩
    · rw [if_neg hcond] at h'
      simp at h'

lemma split_artist_song_some {raw : Str} {p : Str × Str}
    (h : split_artist_song raw = some p) :
    (∃ l, p.1 = rustTrim l) ∧ p.1 ≠ [] ∧ p.2 ≠ [] := by
  unfold split_artist_song at h
  cases h1 : splitTryDelim raw '-' with
  | some q =>
    rw [h1] at h
    rw [← Option.some.inj h]
    exact splitTryDelim_some h1
  | none =>
    rw [h1] at h
    cases h2 : splitTryDelim raw (Char.ofNat 0x2013) with
    | some q =>
      rw [h2] at h
      rw [← Option.some.inj h]
      exact splitTryDelim_some h2
    | none =>
      rw [h2] at h
      exact splitTryDelim_some h

lemma singleSearchText_head {q : Str} {c : Char}
    (h : (singleSearchText q).head? = some c) : rustIsWhitespace c = false := by
  unfold singleSearchText at h
  cases hs : split_artist_song (rustTrim q) with
  | none =>
    rw [hs] at h
    exact rustTrim_head h
  | some p =>
    rw [hs] at h
    have h' : (p.1 ++ (' ' :: p.2)).head? = some c := h
    rcases split_artist_song_some hs with ⟨⟨l, hl⟩, hne, _⟩
    cases hp1 : p.1 with
    | nil => exact absurd hp1 hne
    | cons a t =>
      rw [hp1, List.cons_append] at h'
      have hca : a = c := by simpa using h'
      have hha : (rustTrim l).head? = some c := by
        rw [← hl, hp1, ← hca]
        rfl
      exact rustTrim_head hha

/-- C6 (amended): every result of `build_single_search_query` starts with
`"ytsearch1:"`, ends with the exclusion term `-"music video"`, and
contains exactly the occurrences of `"audio"` (case-insensitively) of its
search text plus one appended occurrence exactly when the search text did
not already contain `"audio"`; in particular no additional `"audio"` is
appended when the input already contains it, but an input that itself
repeats `"audio"` passes both copies through. -/
theorem build_single_search_query_shape (q : Str) :
    isPrefixB "ytsearch1:".data (build_single_search_query q) = true
    ∧ isSuffixB "-\"music video\"".data (build_single_search_query q) = true
    ∧ countOccur "audio".data (lowerAscii (build_single_search_query q))
        = countOccur "audio".data (lowerAscii (singleSearchText q))
          + (if containsSubstr (lowerAscii (singleSearchText q)) "audio".data
              then 0 else 1) := by
  by_cases hsq : singleSearchText q = []
  · have ht : singleSearchTerms q = " audio -\"music video\"".data := by
      unfold singleSearchTerms
      rw [hsq]
      decide
    have hb : build_single_search_query q
        = "ytsearch1:audio -\"music video\"".data := by
      unfold build_single_search_query
      rw [ht]
      decide
    rw [hb, hsq]
    exact ⟨by decide, by decide, by decide⟩
  · by_cases hc : containsSubstr (lowerAscii (singleSearchText q)) "audio".data = true
    · have hterms : singleSearchTerms q
          = singleSearchText q ++ " -\"music video\"".data := by
        unfold singleSearchTerms
        rw [if_pos hc]
      have htrim : rustTrim (singleSearchTerms q) = singleSearchTerms q := by
        apply rustTrim_eq_self
        · intro c hcc
          rw [hterms] at hcc
          cases hsx : singleSearchText q with
          | nil => exact absurd hsx hsq
          | cons a t =>
            rw [hsx, List.cons_append] at hcc
            have hac : a = c := by simpa using hcc
            apply singleSearchText_head (q := q)
            rw [hsx, hac]
            rfl
        · intro c hcc
          rw [hterms, List.reverse_append] at hcc
          rw [head?_append_left _
            (by decide : (" -\"music video\"".data).reverse ≠ [])] at hcc
          rw [(by decide : (" -\"music video\"".data).reverse.head? = some '"')] at hcc
          rw [(Option.some.inj hcc).symm]
          decide
      have hbuild : build_single_search_query q
          = "ytsearch1:".data ++ (singleSearchText q ++ " -\"music video\"".data) := by
        unfold build_single_search_query
        rw [htrim, hterms]
      refine ⟨?_, ?_, ?_⟩
      · rw [hbuild]
        exact isPrefixB_append_self _ _
      · rw [hbuild]
        rw [(by decide : (" -\"music video\"".data : Str)
          = " ".data ++ "-\"music video\"".data)]
        rw [show "ytsearch1:".data
              ++ (singleSearchText q ++ (" ".data ++ "-\"music video\"".data))
            = ("ytsearch1:".data ++ (singleSearchText q ++ " ".data))
              ++ "-\"music video\"".data by simp [List.append_assoc]]
        exact isSuffixB_append_self _ _
      · rw [hbuild]
        unfold lowerAscii at hc ⊢
        rw [List.map_append, List.map_append]
        rw [show ("ytsearch1:".data).map toAsciiLowerChar = "ytsearch1:".data
          from by decide]
        rw [countOccur_audio_ytsearch]
        have hcross : ∀ s : Str, s ≠ [] → s.length < ("audio".data).length →
            isPrefixB "audio".data
              (s ++ (" -\"music video\"".data).map toAsciiLowerChar) = false :=
          audio_no_cross (by decide)
        rw [countOccur_append _ _ _ hcross]
        rw [show countOccur "audio".data
            ((" -\"music video\"".data).map toAsciiLowerChar) = 0 from by decide]
        rw [if_pos hc]
    · have hterms : singleSearchTerms q
          = singleSearchText q ++ " audio -\"music video\"".data := by
        unfold singleSearchTerms
        rw [if_neg hc, List.append_assoc]
        rfl
      have htrim : rustTrim (singleSearchTerms q) = singleSearchTerms q := by
        apply rustTrim_eq_self
        · intro c hcc
          rw [hterms] at hcc
          cases hsx : singleSearchText q with
          | nil => exact absurd hsx hsq
          | cons a t =>
            rw [hsx, List.cons_append] at hcc
            have hac : a = c := by simpa using hcc
            apply singleSearchText_head (q := q)
            rw [hsx, hac]
            rfl
        · intro c hcc
          rw [hterms, List.reverse_append] at hcc
          rw [head?_append_left _
            (by decide : (" audio -\"music video\"".data).reverse ≠ [])] at hcc
          rw [(by decide :
            (" audio -\"music video\"".data).reverse.head? = some '"')] at hcc
          rw [(Option.some.inj hcc).symm]
          decide
      have hbuild : build_single_search_query q
          = "ytsearch1:".data
            ++ (singleSearchText q ++ " audio -\"music video\"".data) := by
        unfold build_single_search_query
        rw [htrim, hterms]
      refine ⟨?_, ?_, ?_⟩
      · rw [hbuild]
        exact isPrefixB_append_self _ _
      · rw [hbuild]
        rw [(by decide : (" audio -\"music video\"".data : Str)
          = " audio ".data ++ "-\"music video\"".data)]
        rw [show "ytsearch1:".data
              ++ (singleSearchText q ++ (" audio ".data ++ "-\"music video\"".data))
            = ("ytsearch1:".data ++ (singleSearchText q ++ " audio ".data))
              ++ "-\"music video\"".data by simp [List.append_assoc]]
        exact isSuffixB_append_self _ _
      · rw [hbuild]
        unfold lowerAscii at hc ⊢
        rw [List.map_append, List.map_append]
        rw [show ("ytsearch1:".data).map toAsciiLowerChar = "ytsearch1:".data
          from by decide]
        rw [countOccur_audio_ytsearch]
        have hcross : ∀ s : Str, s ≠ [] → s.length < ("audio".data).length →
            isPrefixB "audio".data
              (s ++ (" audio -\"music video\"".data).map toAsciiLowerChar)
              = false :=
          audio_no_cross (by decide)
        rw [countOccur_append _ _ _ hcross]
        rw [show countOccur "audio".data
            ((" audio -\"music video\"".data).map toAsciiLowerChar) = 1
          from by decide]
        rw [if_neg hc]

/-- C6 counterexample: for the input `"audio audio"`, which already
contains `"audio"`, the built query still contains the word `"audio"`
twice, refuting the claim's "never contains the word audio twice when
the input already contains it". -/
theorem build_single_search_query_audio_twice :
    containsSubstr (lowerAscii "audio audio".data) "audio".data = true
    ∧ 2 ≤ countOccur "audio".data
        (lowerAscii (build_single_search_query "audio audio".data)) :=
  ⟨by decide, by decide⟩

/-- The error type (main.rs lines 19-33), restricted to the variants the
modelled code can produce. -/
inductive AppError where
  | Message : Str → AppError
  | MusicBrainzNotFound : Str → AppError
  deriving DecidableEq

deriving instance DecidableEq for Except

/-- `MbRecording` (main.rs lines 662-666). -/
structure MbRecording where
  title : Option Str
  deriving DecidableEq

/-- `MbTrack` (main.rs lines 650-660). -/
structure MbTrack where
  position : Option Nat
  number : Option Str
  title : Option Str
  recording : Option MbRecording
  deriving DecidableEq

/-- `MbMedium` (main.rs lines 642-648). -/
structure MbMedium where
  position : Option Nat
  tracks : List MbTrack
  deriving DecidableEq

/-- `MbArtist` (main.rs lines 636-640). -/
structure MbArtist where
  name : Option Str
  deriving DecidableEq

/-- `MbArtistCredit` (main.rs lines 626-634). -/
structure MbArtistCredit where
  name : Option Str
  joinphrase : Option Str
  artist : Option MbArtist
  deriving DecidableEq

/-- `MbReleaseDetail` (main.rs lines 614-624). -/
structure MbReleaseDetail where
  title : Option Str
  date : Option Str
  artist_credit : List MbArtistCredit
  media : List MbMedium
  deriving DecidableEq

/-- `MusicBrainzTrack` (main.rs lines 595-601). -/
structure MusicBrainzTrack where
  title : Str
  disc : Nat
  position : Nat
  overall_index : Nat
  deriving DecidableEq

/-- `MusicBrainzAlbum` (main.rs lines 586-593). -/
structure MusicBrainzAlbum where
  title : Str
  artist : Str
  release_date : Option Str
  total_discs : Nat
  tracks : List MusicBrainzTrack
  deriving DecidableEq

/-- Rust `str::parse::<u32>()` as used on MusicBrainz track-number
strings: an optional leading `+`, then one or more ASCII digits, value
within the u32 range. -/
def parseU32 (s : Str) : Option Nat :=
  let digits := match s with
    | '+' :: rest => rest
    | _ => s
  if digits ≠ [] ∧ digits.all (fun c => c.isDigit) then
    let v := digits.foldl (fun acc c => acc * 10 + (c.toNat - 48)) 0
    if v ≤ 4294967295 then some v else none
  else none

example : parseU32 "12".data = some 12 := by decide

example : parseU32 "x2".data = none := by decide

/-- `format_artist_credit` (main.rs lines 484-518). -/
def format_artist_credit (credits : List MbArtistCredit) : Str :=
  if credits.isEmpty then []
  else
    let composed := credits.foldl (fun acc credit =>
      let acc2 :=
        match credit.name.or (credit.artist.bind (fun a => a.name)) with
        | some name => acc ++ name
        | none => acc
      match credit.joinphrase with
      | some join => acc2 ++ join
      | none => acc2) []
    if composed.isEmpty then
      List.intercalate " & ".data
        (credits.filterMap (fun credit => credit.artist.bind (fun a => a.name)))
    else composed

/-- The inner track loop of `convert_release_detail` (main.rs lines
444-460): convert each track of one medium with the title / position
fallback chains; `overall_index` is the running accumulator length plus
one at push time. -/
def pushMediumTracks (disc : Nat) :
    List MbTrack → Nat → List MusicBrainzTrack → List MusicBrainzTrack
  | [], _, acc => acc
  | t :: ts, indexOnDisc, acc =>
    pushMediumTracks disc ts (indexOnDisc + 1)
      (acc ++ [{ title := (t.title.or (t.recording.bind (fun r => r.title))).getD
                   ("Track ".data ++ Nat.toDigits 10 (indexOnDisc + 1))
               , disc := disc
               , position := (t.position.or (t.number.bind parseU32)).getD
                   (indexOnDisc + 1)
               , overall_index := acc.length + 1 }])

/-- The medium loop of `convert_release_detail` (main.rs lines 435-461):
skip empty media, give each medium its declared position or 1-based index
among all media as disc number, and count contributing media. -/
def convertMedia :
    List MbMedium → Nat → List MusicBrainzTrack × Nat → List MusicBrainzTrack × Nat
  | [], _, st => st
  | m :: ms, mediumIndex, st =>
    if m.tracks.isEmpty then convertMedia ms (mediumIndex + 1) st
    else
      convertMedia ms (mediumIndex + 1)
        (pushMediumTracks (m.position.getD (mediumIndex + 1)) m.tracks 0 st.1,
          st.2 + 1)

/-- `convert_release_detail` (main.rs lines 417-482). -/
def convert_release_detail (detail : MbReleaseDetail) :
    Except AppError MusicBrainzAlbum :=
  if (convertMedia detail.media 0 ([], 0)).1.isEmpty then
    .error (.Message "MusicBrainz release does not contain any tracks".data)
  else
    .ok { title := detail.title.getD "Unknown Release".data
        , artist :=
            if (format_artist_credit detail.artist_credit).isEmpty
            then "Unknown Artist".data
            else format_artist_credit detail.artist_credit
        , release_date := detail.date
        , total_discs :=
            if (convertMedia detail.media 0 ([], 0)).2 = 0 then 1
            else (convertMedia detail.media 0 ([], 0)).2
        , tracks := (convertMedia detail.media 0 ([], 0)).1 }

/-- `MbReleaseSearchEntry` (main.rs lines 609-612). -/
structure MbReleaseSearchEntry where
  id : Str
  deriving DecidableEq

/-- `MbReleaseSearchResponse` (main.rs lines 603-607). -/
structure MbReleaseSearchResponse where
  releases : List MbReleaseSearchEntry
  deriving DecidableEq

/-- The pure core of `MusicBrainzClient::find_album` (main.rs lines
350-385): transport is out of scope, so the search response and the
release-detail payload fetched for the first release id are parameters;
zero search results yield `ok none`, otherwise the converted detail. -/
def findAlbumPure (resp : MbReleaseSearchResponse) (detail : MbReleaseDetail) :
    Except AppError (Option MusicBrainzAlbum) :=
  match resp.releases with
  | [] => .ok none
  | _ :: _ => (convert_release_detail detail).map some

/-- Spec 4.4's disc numbers in discovery order: each track of a medium
gets the medium's declared position, or the medium's 1-based index among
*all* media (including empty ones) when absent; `start` is the 0-based
index of the first medium of the remaining list. -/
def specDiscNumbersFrom : List MbMedium → Nat → List Nat
  | [], _ => []
  | m :: ms, start =>
    m.tracks.map (fun _ => m.position.getD (start + 1))
      ++ specDiscNumbersFrom ms (start + 1)

/-- Spec 4.4's disc numbers for a full media array. -/
def specDiscNumbers (media : List MbMedium) : List Nat :=
  specDiscNumbersFrom media 0

/-- The consecutive integers `start, start+1, …, start+n-1`. -/
def consecutiveFrom (start : Nat) : Nat → List Nat
  | 0 => []
  | n + 1 => start :: consecutiveFrom (start + 1) n

lemma consecutiveFrom_snoc (start n : Nat) :
    consecutiveFrom start (n + 1) = consecutiveFrom start n ++ [start + n] := by
  induction n generalizing start with
  | zero => rfl
  | succ k ih =>
    show start :: consecutiveFrom (start + 1) (k + 1)
      = (start :: consecutiveFrom (start + 1) k) ++ [start + (k + 1)]
    rw [ih (start + 1), List.cons_append]
    have : start + 1 + k = start + (k + 1) := by omega
    rw [this]

lemma pushMediumTracks_disc (disc : Nat) (ts : List MbTrack) (i : Nat)
    (acc : List MusicBrainzTrack) :
    (pushMediumTracks disc ts i acc).map (fun t => t.disc)
      = acc.map (fun t => t.disc) ++ ts.map (fun _ => disc) := by
  induction ts generalizing i acc with
  | nil => simp [pushMediumTracks]
  | cons t ts ih =>
    rw [pushMediumTracks, ih]
    simp [List.map_append]

lemma pushMediumTracks_overall (disc : Nat) (ts : List MbTrack) (i : Nat)
    (acc : List MusicBrainzTrack)
    (hacc : acc.map (fun t => t.overall_index) = consecutiveFrom 1 acc.length) :
    (pushMediumTracks disc ts i acc).map (fun t => t.overall_index)
      = consecutiveFrom 1 (pushMediumTracks disc ts i acc).length := by
  induction ts generalizing i acc with
  | nil => simpa [pushMediumTracks] using hacc
  | cons t ts ih =>
    rw [pushMediumTracks]
    apply ih
    rw [List.map_append, hacc, List.length_append]
    simp only [List.length_cons, List.length_nil, List.map_cons, List.map_nil]
    rw [consecutiveFrom_snoc]
    have : 1 + acc.length = acc.length + 1 := by omega
    rw [this]

lemma convertMedia_disc (ms : List MbMedium) (idx : Nat)
    (acc : List MusicBrainzTrack) (d : Nat) :
    ((convertMedia ms idx (acc, d)).1).map (fun t => t.disc)
      = acc.map (fun t => t.disc) ++ specDiscNumbersFrom ms idx := by
  induction ms generalizing idx acc d with
  | nil => simp [convertMedia, specDiscNumbersFrom]
  | cons m ms ih =>
    rw [convertMedia, specDiscNumbersFrom]
    by_cases hm : m.tracks.isEmpty = true
    · rw [if_pos hm, ih]
      rw [List.isEmpty_iff.mp hm]
      simp
    · rw [if_neg hm, ih, pushMediumTracks_disc, List.append_assoc]

lemma convertMedia_overall (ms : List MbMedium) (idx : Nat)
    (acc : List MusicBrainzTrack) (d : Nat)
    (hacc : acc.map (fun t => t.overall_index) = consecutiveFrom 1 acc.length) :
    ((convertMedia ms idx (acc, d)).1).map (fun t => t.overall_index)
      = consecutiveFrom 1 ((convertMedia ms idx (acc, d)).1).length := by
  induction ms generalizing idx acc d with
  | nil => simpa [convertMedia] using hacc
  | cons m ms ih =>
    rw [convertMedia]
    by_cases hm : m.tracks.isEmpty = true
    · rw [if_pos hm]
      exact ih idx.succ acc d hacc
    · rw [if_neg hm]
      exact ih idx.succ _ _ (pushMediumTracks_overall _ _ _ _ hacc)

lemma convertMedia_all_empty {ms : List MbMedium} {idx : Nat}
    {st : List MusicBrainzTrack × Nat} (h : ∀ m ∈ ms, m.tracks = []) :
    convertMedia ms idx st = st := by
  induction ms generalizing idx st with
  | nil => rfl
  | cons m ms ih =>
    rw [convertMedia, if_pos (by rw [h m (List.mem_cons_self m ms)]; rfl)]
    exact ih (fun m' hm' => h m' (List.mem_cons_of_mem m hm'))

lemma convert_release_detail_ok {detail : MbReleaseDetail}
    {album : MusicBrainzAlbum}
    (h : convert_release_detail detail = .ok album) :
    album.tracks = (convertMedia detail.media 0 ([], 0)).1
    ∧ (convertMedia detail.media 0 ([], 0)).1 ≠ [] := by
  unfold convert_release_detail at h
  by_cases hemp : ((convertMedia detail.media 0 ([], 0)).1).isEmpty = true
  · rw [if_pos hemp] at h
    simp at h
  · rw [if_neg hemp] at h
    have halb := Except.ok.inj h
    constructor
    · rw [← halb]
    · intro hc
      apply hemp
      rw [hc]
      rfl

/-- C3: whenever `convert_release_detail` succeeds, the tracks'
`overall_index` values are exactly `1..N` in list order, assigned in
discovery order across media, and each track's disc number is its
medium's declared position or that medium's 1-based index among all
media (including skipped empty ones). -/
theorem convert_release_detail_indices (detail : MbReleaseDetail)
    (album : MusicBrainzAlbum)
    (h : convert_release_detail detail = .ok album) :
    album.tracks.map (fun t => t.overall_index)
        = consecutiveFrom 1 album.tracks.length
    ∧ album.tracks.map (fun t => t.disc) = specDiscNumbers detail.media := by
  rcases convert_release_detail_ok h with ⟨htr, _⟩
  constructor
  · rw [htr]
    exact convertMedia_overall detail.media 0 [] 0 rfl
  · rw [htr]
    have hd := convertMedia_disc detail.media 0 [] 0
    simpa [specDiscNumbers] using hd

/-- A concrete release detail exercising the position and title
fallbacks, an empty skipped medium, and an absent medium position. -/
def detailIndicesW : MbReleaseDetail :=
  { title := some "Alb".data
  , date := some "2020".data
  , artist_credit := []
  , media :=
      [ { position := none
        , tracks :=
            [ { position := some 7, number := none
              , title := some "A".data, recording := none }
            , { position := none, number := some "12".data
              , title := none, recording := some { title := some "B".data } } ] }
      , { position := none, tracks := [] }
      , { position := none
        , tracks :=
            [ { position := none, number := none
              , title := none, recording := none } ] } ] }

/-- The album `detailIndicesW` converts to. -/
def albumIndicesW : MusicBrainzAlbum :=
  { title := "Alb".data
  , artist := "Unknown Artist".data
  , release_date := some "2020".data
  , total_discs := 2
  , tracks :=
      [ { title := "A".data, disc := 1, position := 7, overall_index := 1 }
      , { title := "B".data, disc := 1, position := 12, overall_index := 2 }
      , { title := "Track 1".data, disc := 3, position := 1, overall_index := 3 } ] }

/-- Witness for C3 at a concrete two-disc release. -/
theorem convert_release_detail_indices_witness :
    convert_release_detail detailIndicesW = .ok albumIndicesW
    ∧ albumIndicesW.tracks.map (fun t => t.overall_index)
        = consecutiveFrom 1 albumIndicesW.tracks.length
    ∧ albumIndicesW.tracks.map (fun t => t.disc)
        = specDiscNumbers detailIndicesW.media :=
  ⟨by decide,
    (convert_release_detail_indices detailIndicesW albumIndicesW (by decide)).1,
    (convert_release_detail_indices detailIndicesW albumIndicesW (by decide)).2⟩

/-- C4: a release whose media all have empty track lists converts to the
hard `Message` error; a successful conversion never has an empty track
list; and zero search results make `find_album` return `ok none`, a
distinct outcome. -/
theorem convert_release_detail_empty_error (detail : MbReleaseDetail) :
    ((∀ m ∈ detail.media, m.tracks = []) →
      convert_release_detail detail
        = .error (.Message "MusicBrainz release does not contain any tracks".data))
    ∧ (∀ album, convert_release_detail detail = .ok album →
        1 ≤ album.tracks.length)
    ∧ findAlbumPure ⟨[]⟩ detail = .ok none := by
  refine ⟨?_, ?_, rfl⟩
  · intro h
    unfold convert_release_detail
    rw [convertMedia_all_empty h]
    rfl
  · intro album h
    rcases convert_release_detail_ok h with ⟨htr, hne⟩
    rw [htr]
    cases hl : (convertMedia detail.media 0 ([], 0)).1 with
    | nil => exact absurd hl hne
    | cons a t => simp

/-- A release detail with media but no tracks anywhere. -/
def detailEmptyW : MbReleaseDetail :=
  { title := none, date := none, artist_credit := []
  , media := [⟨some 1, []⟩, ⟨none, []⟩] }

/-- Witness for C4 at a concrete all-empty release, plus the non-empty
clause at the C3 witness release. -/
theorem convert_release_detail_empty_error_witness :
    ((∀ m ∈ detailEmptyW.media, m.tracks = [])
      ∧ convert_release_detail detailEmptyW
          = .error (.Message "MusicBrainz release does not contain any tracks".data))
    ∧ (convert_release_detail detailIndicesW = .ok albumIndicesW
      ∧ 1 ≤ albumIndicesW.tracks.length) :=
  ⟨⟨by decide, (convert_release_detail_empty_error detailEmptyW).1 (by decide)⟩,
    ⟨by decide,
      (convert_release_detail_empty_error detailIndicesW).2.1 albumIndicesW
        (by decide)⟩⟩

/-- The download mode (main.rs lines 66-70). -/
inductive DownloadMode where
  | single
  | album
  deriving DecidableEq

/-- `matches!(mode, DownloadMode::Album)` (main.rs line 94). -/
def isAlbumMode : DownloadMode → Bool
  | .album => true
  | .single => false

/-- `AliasEntry` (main.rs lines 856-861). -/
structure AliasEntry where
  url : Str
  album : Bool
  deriving DecidableEq

/-- Exact-key lookup in the alias table (`config.aliases.get(query)`,
main.rs line 93). -/
def lookupAlias : List (Str × AliasEntry) → Str → Option AliasEntry
  | [], _ => none
  | (k, v) :: rest, q => if k = q then some v else lookupAlias rest q

/-- `looks_like_url` (main.rs lines 668-676). -/
def looks_like_url (input : Str) : Bool :=
  isPrefixB "http://".data (lowerAscii (rustTrim input))
  || isPrefixB "https://".data (lowerAscii (rustTrim input))
  || isPrefixB "ytsearch:".data (lowerAscii (rustTrim input))
  || isPrefixB "ytsearch".data (lowerAscii (rustTrim input))
  || isPrefixB "www.".data (lowerAscii (rustTrim input))
  || containsSubstr (lowerAscii (rustTrim input)) "://".data

/-- `looks_like_playlist` (main.rs lines 682-685). -/
def looks_like_playlist (value : Str) : Bool :=
  containsSubstr (lowerAscii value) "list=".data

/-- `should_apply_album_metadata` (main.rs lines 678-680). -/
def should_apply_album_metadata (download_album : Bool)
    (resolved_target : Str) : Bool :=
  download_album && looks_like_playlist resolved_target

/-- The observable choices `handle_download` makes when building the
yt-dlp command (main.rs lines 108-147): the resolved target string, the
`--yes-playlist` vs `--no-playlist` flag, and whether the
`--parse-metadata` pair is added. -/
structure InvocationPlan where
  resolvedTarget : Str
  yesPlaylist : Bool
  parseMetadata : Bool
  deriving DecidableEq

/-- The `(resolved_target, alias_album)` pair of `handle_download`
(main.rs lines 108-124); `albumResolved` stands for the result of the
effectful `resolve_album_query` taken in the album/no-alias/non-URL
path. -/
def resolveTargetPair (aliases : List (Str × AliasEntry)) (mode : DownloadMode)
    (rawTarget : Str) (albumResolved : Str) : Str × Bool :=
  match lookupAlias aliases (rustTrim rawTarget) with
  | some al => (al.url, al.album)
  | none =>
    if looks_like_url (rustTrim rawTarget) then (rustTrim rawTarget, false)
    else
      match mode with
      | .single => (build_single_search_query (rustTrim rawTarget), false)
      | .album => (albumResolved, false)

/-- The pure decision logic of `handle_download` after the MusicBrainz
branch (main.rs lines 108-147).  When an alias matches the trimmed
target, the MusicBrainz branch (lines 96-106) is skipped in the source,
so for alias targets this plan is the whole observable decision. -/
def handleDownloadPlan (aliases : List (Str × AliasEntry)) (mode : DownloadMode)
    (rawTarget : Str) (albumResolved : Str) : InvocationPlan :=
  { resolvedTarget := (resolveTargetPair aliases mode rawTarget albumResolved).1
  , yesPlaylist :=
      (resolveTargetPair aliases mode rawTarget albumResolved).2 || isAlbumMode mode
  , parseMetadata :=
      should_apply_album_metadata
        ((resolveTargetPair aliases mode rawTarget albumResolved).2
          || isAlbumMode mode)
        (resolveTargetPair aliases mode rawTarget albumResolved).1 }

lemma resolveTargetPair_alias {aliases : List (Str × AliasEntry)}
    {mode : DownloadMode} {rawTarget albumResolved : Str} {a : AliasEntry}
    (h : lookupAlias aliases (rustTrim rawTarget) = some a) :
    resolveTargetPair aliases mode rawTarget albumResolved = (a.url, a.album) := by
  unfold resolveTargetPair
  rw [h]

/-- C5: when the trimmed target exactly matches an alias name, the
alias's URL is the resolved target and the playlist flag equals
(alias album) OR (mode is album); in particular an album alias invoked
in single mode still gets the playlist-mode flag. -/
theorem alias_overrides_mode (aliases : List (Str × AliasEntry))
    (mode : DownloadMode) (target albumResolved : Str) (a : AliasEntry)
    (h : lookupAlias aliases (rustTrim target) = some a) :
    (handleDownloadPlan aliases mode target albumResolved).resolvedTarget = a.url
    ∧ (handleDownloadPlan aliases mode target albumResolved).yesPlaylist
        = (a.album || isAlbumMode mode)
    ∧ (a.album = true →
        (handleDownloadPlan aliases DownloadMode.single target
            albumResolved).yesPlaylist = true) := by
  refine ⟨?_, ?_, ?_⟩
  · show (resolveTargetPair aliases mode target albumResolved).1 = a.url
    rw [resolveTargetPair_alias h]
  · show ((resolveTargetPair aliases mode target albumResolved).2 || isAlbumMode mode)
      = (a.album || isAlbumMode mode)
    rw [resolveTargetPair_alias h]
  · intro ha
    show ((resolveTargetPair aliases DownloadMode.single target albumResolved).2
        || isAlbumMode DownloadMode.single) = true
    rw [resolveTargetPair_alias h, ha]
    rfl

/-- The alias table of the spec's end-to-end example. -/
def aliasesW : List (Str × AliasEntry) :=
  [("focus".data, ⟨"https://example/list?list=X".data, true⟩)]

/-- Witness for C5: the `"focus"` album alias invoked in single mode
still yields the playlist flag. -/
theorem alias_overrides_mode_witness :
    lookupAlias aliasesW (rustTrim "focus".data)
        = some ⟨"https://example/list?list=X".data, true⟩
    ∧ (handleDownloadPlan aliasesW DownloadMode.single "focus".data
        "".data).yesPlaylist = true :=
  ⟨by decide,
    (alias_overrides_mode aliasesW DownloadMode.single "focus".data "".data
      ⟨"https://example/list?list=X".data, true⟩ (by decide)).2.2 rfl⟩

/-- One yt-dlp track invocation of the MusicBrainz album loop (main.rs
lines 321-329), identified by its variable arguments; the fixed base
flags (main.rs lines 153-169) are the same for every track. -/
structure TrackInvocation where
  ytQuery : Str
  outputTemplate : Str
  metadataArgs : Str
  format : Str
  deriving DecidableEq

/-- Rust `format!("{:02}", n)` for the zero-padded numbers of
`track_output_template` and `build_metadata_args`. -/
def zeroPad2 (n : Nat) : Str :=
  if n < 10 then '0' :: Nat.toDigits 10 n else Nat.toDigits 10 n

/-- `Path::join` under the destination, modelled on strings with a `/`
separator. -/
def pathJoin (dir file : Str) : Str := dir ++ ('/' :: file)

/-- `track_output_template` (main.rs lines 520-529). -/
def track_output_template (destination : Str) (track : MusicBrainzTrack)
    (total_discs : Nat) : Str :=
  pathJoin destination
    ((if total_discs > 1
      then zeroPad2 track.disc ++ ('-' :: zeroPad2 track.position)
      else zeroPad2 track.overall_index)
      ++ " - ".data ++ sanitize_filename track.title ++ ".%(ext)s".data)

/-- `quote_metadata_value` (main.rs lines 564-567): escape backslashes
first, then double quotes, then wrap in double quotes. -/
def quote_metadata_value (value : Str) : Str :=
  '"' :: ((value.map (fun c => if c = '\\' then ['\\', '\\'] else [c])).flatten.map
    (fun c => if c = '"' then ['\\', '"'] else [c])).flatten ++ ['"']

example : quote_metadata_value "a\\\"b".data = "\"a\\\\\\\"b\"".data := by decide

/-- `build_metadata_args` (main.rs lines 531-562). -/
def build_metadata_args (album : MusicBrainzAlbum) (track : MusicBrainzTrack)
    (total_tracks : Nat) : Str :=
  "ffmpeg:".data ++ List.intercalate " ".data
    ([ "-metadata artist=".data ++ quote_metadata_value album.artist
     , "-metadata album=".data ++ quote_metadata_value album.title
     , "-metadata album_artist=".data ++ quote_metadata_value album.artist
     , "-metadata title=".data ++ quote_metadata_value track.title
     , "-metadata track=".data ++ quote_metadata_value
         (zeroPad2 track.overall_index ++ ('/' :: Nat.toDigits 10 total_tracks)) ]
     ++ (if album.total_discs > 1 then
          ["-metadata disc=".data
            ++ quote_metadata_value (Nat.toDigits 10 track.disc)]
        else [])
     ++ (match album.release_date with
        | some date => ["-metadata date=".data ++ quote_metadata_value date]
        | none => []))

/-- The per-track invocation built in the loop body of
`download_album_with_musicbrainz` (main.rs lines 321-329). -/
def mkTrackInvocation (album : MusicBrainzAlbum) (destination fmt : Str)
    (track : MusicBrainzTrack) : TrackInvocation :=
  { ytQuery := build_single_search_query
      (album.artist ++ (' ' :: track.title) ++ (' ' :: album.title))
  , outputTemplate := track_output_template destination track album.total_discs
  , metadataArgs := build_metadata_args album track album.tracks.length
  , format := fmt }

/-- The per-track loop of `download_album_with_musicbrainz` (main.rs
lines 313-334): run one invocation per track in list order through
`runner` (the blocking yt-dlp call; a non-zero exit is `run_yt_dlp`'s
error) and abort at the first failure.  Returns the attempted
invocations in order and the final result. -/
def runTracksLoop (runner : TrackInvocation → Except AppError Unit)
    (mk : MusicBrainzTrack → TrackInvocation) :
    List MusicBrainzTrack → List TrackInvocation × Except AppError Unit
  | [] => ([], .ok ())
  | t :: ts =>
    match runner (mk t) with
    | .ok _ =>
      (mk t :: (runTracksLoop runner mk ts).1, (runTracksLoop runner mk ts).2)
    | .error e => ([mk t], .error e)

/-- The whole album loop (main.rs lines 313-334) for a converted album. -/
def downloadAlbumTracks (runner : TrackInvocation → Except AppError Unit)
    (album : MusicBrainzAlbum) (destination fmt : Str) :
    List TrackInvocation × Except AppError Unit :=
  runTracksLoop runner (mkTrackInvocation album destination fmt) album.tracks

lemma runTracksLoop_all_ok (runner : TrackInvocation → Except AppError Unit)
    (mk : MusicBrainzTrack → TrackInvocation) (ts : List MusicBrainzTrack)
    (h : ∀ t ∈ ts, runner (mk t) = .ok ()) :
    runTracksLoop runner mk ts = (ts.map mk, .ok ()) := by
  induction ts with
  | nil => rfl
  | cons t ts ih =>
    have h1 := h t (List.mem_cons_self t ts)
    have h2 := ih (fun t' ht' => h t' (List.mem_cons_of_mem t ht'))
    show (match runner (mk t) with
      | .ok _ =>
        (mk t :: (runTracksLoop runner mk ts).1, (runTracksLoop runner mk ts).2)
      | .error e => ([mk t], .error e)) = ((t :: ts).map mk, .ok ())
    rw [h1]
    change (mk t :: (runTracksLoop runner mk ts).1, (runTracksLoop runner mk ts).2)
      = ((t :: ts).map mk, .ok ())
    rw [h2]
    rfl

lemma runTracksLoop_first_error (runner : TrackInvocation → Except AppError Unit)
    (mk : MusicBrainzTrack → TrackInvocation) (ts : List MusicBrainzTrack)
    (k : Nat) (e : AppError) (hk : k < ts.length)
    (hfail : runner (mk (ts.get ⟨k, hk⟩)) = .error e)
    (hprev : ∀ j (hj : j < k), runner (mk (ts.get ⟨j, Nat.lt_trans hj hk⟩)) = .ok ()) :
    runTracksLoop runner mk ts = ((ts.take (k + 1)).map mk, .error e) := by
  induction ts generalizing k with
  | nil => exact absurd hk (Nat.not_lt_zero k)
  | cons t ts ih =>
    cases k with
    | zero =>
      have h1 : runner (mk t) = .error e := hfail
      show (match runner (mk t) with
        | .ok _ =>
          (mk t :: (runTracksLoop runner mk ts).1, (runTracksLoop runner mk ts).2)
        | .error e => ([mk t], .error e))
        = (((t :: ts).take 1).map mk, .error e)
      rw [h1]
      rfl
    | succ k' =>
      have h0 : runner (mk t) = .ok () := hprev 0 (Nat.succ_pos k')
      have hk' : k' < ts.length := Nat.lt_of_succ_lt_succ hk
      have hfail' : runner (mk (ts.get ⟨k', hk'⟩)) = .error e := hfail
      have hprev' : ∀ j (hj : j < k'),
          runner (mk (ts.get ⟨j, Nat.lt_trans hj hk'⟩)) = .ok () :=
        fun j hj => hprev (j + 1) (Nat.succ_lt_succ hj)
      show (match runner (mk t) with
        | .ok _ =>
          (mk t :: (runTracksLoop runner mk ts).1, (runTracksLoop runner mk ts).2)
        | .error e => ([mk t], .error e))
        = (((t :: ts).take (k' + 1 + 1)).map mk, .error e)
      rw [h0]
      change (mk t :: (runTracksLoop runner mk ts).1, (runTracksLoop runner mk ts).2)
        = (((t :: ts).take (k' + 1 + 1)).map mk, .error e)
      rw [ih k' hk' hfail' hprev']
      rfl

/-- C2: the MusicBrainz album loop performs one yt-dlp invocation per
track, strictly sequentially in track-list order (which is
overallIndex order by C3's invariant); when all invocations succeed
every track is attempted in order, and the first failing invocation
aborts the loop: exactly the tracks up to and including the failing one
are attempted and that invocation's error is returned. -/
theorem album_loop_sequential_abort
    (runner : TrackInvocation → Except AppError Unit)
    (album : MusicBrainzAlbum) (destination fmt : Str) :
    ((∀ t ∈ album.tracks,
        runner (mkTrackInvocation album destination fmt t) = .ok ()) →
      downloadAlbumTracks runner album destination fmt
        = (album.tracks.map (mkTrackInvocation album destination fmt), .ok ()))
    ∧ (∀ (k : Nat) (e : AppError) (hk : k < album.tracks.length),
        (∀ j (hj : j < k),
          runner (mkTrackInvocation album destination fmt
            (album.tracks.get ⟨j, Nat.lt_trans hj hk⟩)) = .ok ()) →
        runner (mkTrackInvocation album destination fmt
          (album.tracks.get ⟨k, hk⟩)) = .error e →
        downloadAlbumTracks runner album destination fmt
          = ((album.tracks.take (k + 1)).map
              (mkTrackInvocation album destination fmt), .error e)) :=
  ⟨fun h => runTracksLoop_all_ok runner _ album.tracks h,
    fun k e hk hprev hfail =>
      runTracksLoop_first_error runner _ album.tracks k e hk hfail hprev⟩

/-- A concrete three-track album for the C2 witness. -/
def albumLoopW : MusicBrainzAlbum :=
  { title := "T".data, artist := "A".data, release_date := none, total_discs := 1
  , tracks :=
      [ { title := "one".data, disc := 1, position := 1, overall_index := 1 }
      , { title := "two".data, disc := 1, position := 2, overall_index := 2 }
      , { title := "three".data, disc := 1, position := 3, overall_index := 3 } ] }

/-- A runner that fails exactly on the second track's invocation,
mirroring a non-zero yt-dlp exit. -/
def runnerW : TrackInvocation → Except AppError Unit := fun inv =>
  if inv.outputTemplate
      = track_output_template "/music".data
          { title := "two".data, disc := 1, position := 2, overall_index := 2 } 1
  then .error (.Message "yt-dlp exited with status 1".data)
  else .ok ()

/-- Witness for C2: with the second invocation failing, exactly the
first two invocations are attempted and the failure's error is
returned. -/
theorem album_loop_sequential_abort_witness :
    runnerW (mkTrackInvocation albumLoopW "/music".data "mp3".data
        (albumLoopW.tracks.get ⟨1, by decide⟩))
      = .error (.Message "yt-dlp exited with status 1".data)
    ∧ downloadAlbumTracks runnerW albumLoopW "/music".data "mp3".data
        = ((albumLoopW.tracks.take 2).map
            (mkTrackInvocation albumLoopW "/music".data "mp3".data),
          .error (.Message "yt-dlp exited with status 1".data)) :=
  ⟨by decide,
    (album_loop_sequential_abort runnerW albumLoopW "/music".data "mp3".data).2
      1 (.Message "yt-dlp exited with status 1".data) (by decide) (by decide)
      (by decide)⟩

end Bippi
